import Mathlib

/-!
Verification of the commit-reconciliation engine of
`vault-plugin-gitops-terraform` against a shallow Lean embedding of its Go
source.

The embedding covers:
* the Signed-Commit Locator (`pkg/git_repository/git.go`,
  `FindFirstSignedCommitFromHead`);
* the Coordinator (`periodic.go`: `PeriodicTask`, `processGitInternal`,
  `processGit`, `checkExceedingInterval`) together with the Commit Applier
  (`policy.go`: `processCommit`);
* the declarative-apply pipeline (`pkg/terraform/cli.go`,
  `ApplyTerraformFromRepo`);
* the worktree file-extraction passes (`pkg/terraform/cli.go`
  `extractTerraformFiles`, `policy.go` `readPolicyFiles` / `readAuthRoles`).

Conventions of the embedding:
* Wall-clock times and committer dates are `Int` epoch seconds
  (`time.Time` values only ever flow through `.Unix()` / `time.Unix` and
  `Before` / `After` / `Since` comparisons in the modelled code).
* The Vault `logical.Storage` key/value store is a record with one field per
  key actually used by the engine; an absent key is the zero value, matching
  `util.GetString` / `util.GetInt64` semantics ("absent keys are treated as
  zero-value, never as an error").  Storage writes are modelled as reliable:
  the claims under verification are about the engine's control flow, not
  about fault injection in the storage backend itself.
* Fallible external collaborators (config lookup, clone, signature
  verification, the terraform binary, the Vault HTTP API) are parameters of
  the embedding, supplied as an environment record; each such call yields a
  value, a Go error, or a Go panic (`Res`).
-/

namespace GitOpsTerraform

/-- Outcome of a Go call: a value, a returned `error`, or a panic that
propagates past the caller (running only `defer`s on the way). -/
inductive Res (α : Type) where
  | ok (a : α)
  | err (e : String)
  | panicked (m : String)
deriving DecidableEq, Repr

/-- Outcome of a Go function that returns only `error`. -/
inductive Outcome where
  | ok
  | err (e : String)
  | panicked (m : String)
deriving DecidableEq, Repr

/-! ## Signed-Commit Locator (`pkg/git_repository/git.go`) -/

/-- CommitInfo from `git.go`: a commit hash together with its committer
date (epoch seconds). -/
structure CommitInfo where
  commitHash : String
  commitDate : Int
deriving DecidableEq, Repr

/-- A commit as seen by the locator's walk: its hash, its committer date,
and the key ids of the signatures attached to it (the signature notes that
`VerifyCommitSignatures` inspects). -/
structure Commit where
  hash : String
  committerDate : Int
  signatures : List String
deriving DecidableEq, Repr

/-- The freshly cloned repository as the locator consumes it: the hash of
`HEAD` and the commit sequence yielded by `gitRepo.Log({From: head})`,
head first, walking backwards. -/
structure GitRepo where
  headHash : String
  log : List Commit
deriving DecidableEq, Repr

/-- Modelled from the spec: `pkg/git.VerifyCommitSignatures` (the signature
verification primitive called at `git.go:115`) is not among the provided
sources.  Spec §4.2 / glossary: the check succeeds when at least the
required quorum of **distinct trusted keys** has a valid signature on the
commit; a quorum requirement of 0 trivially accepts. -/
def VerifyCommitSignatures (trustedKeys : List String) (requiredQuorum : Nat)
    (sigs : List String) : Bool :=
  requiredQuorum ≤ ((sigs.filter (fun k => trustedKeys.contains k)).dedup).length

/-- The date guard of `git.go:128`: whether a committer date is strictly
before the committer date of the last finished commit (false when there is
no last finished commit, matching the `lastFinishedCommit != nil` check). -/
def olderThanLastFinished (lastFinishedCommit : Option CommitInfo) (d : Int) : Bool :=
  match lastFinishedCommit with
  | some lfc => decide (d < lfc.commitDate)
  | none => false

/-- The backwards walk of `FindFirstSignedCommitFromHead` (`git.go:95-139`),
one loop iteration per list element:
stop at the boundary commit; skip commits failing the signature quorum;
skip commits dated strictly after the current time; skip commits dated
strictly before the previously finished commit; return the first survivor. -/
def walkLog (boundaryCommit : String) (trustedKeys : List String)
    (requiredQuorum : Nat) (currentTime : Int)
    (lastFinishedCommit : Option CommitInfo) : List Commit → Option CommitInfo
  | [] => none
  | c :: rest =>
    if boundaryCommit ≠ ("") ∧ c.hash = boundaryCommit then
      none
    else if ¬ VerifyCommitSignatures trustedKeys requiredQuorum c.signatures then
      walkLog boundaryCommit trustedKeys requiredQuorum currentTime lastFinishedCommit rest
    else if currentTime < c.committerDate then
      walkLog boundaryCommit trustedKeys requiredQuorum currentTime lastFinishedCommit rest
    else if olderThanLastFinished lastFinishedCommit c.committerDate then
      walkLog boundaryCommit trustedKeys requiredQuorum currentTime lastFinishedCommit rest
    else
      some { commitHash := c.hash, commitDate := c.committerDate }

/-- The locator `FindFirstSignedCommitFromHead` (`git.go:44-144`), with the successful
clone (`repo`), the trusted key set, the configured quorum and the current
wall-clock time supplied as parameters (they are produced by I/O before the
walk starts).  The boundary is the hash of `lastFinishedCommit` (empty when
none); when it is non-empty and equals `HEAD`, the search is skipped. -/
def FindFirstSignedCommitFromHead (repo : GitRepo) (trustedKeys : List String)
    (requiredQuorum : Nat) (currentTime : Int)
    (lastFinishedCommit : Option CommitInfo) : Option CommitInfo :=
  let boundaryCommit := match lastFinishedCommit with
    | some lfc => lfc.commitHash
    | none => ("")
  if boundaryCommit ≠ ("") ∧ boundaryCommit = repo.headHash then
    none
  else
    walkLog boundaryCommit trustedKeys requiredQuorum currentTime
      lastFinishedCommit repo.log

/-! ## Coordinator and Applier (`periodic.go`, `policy.go`) -/

/-- The engine's view of the Vault `logical.Storage` key/value store, one
field per key the modelled code touches.  Zero values stand for absent keys
(`util.GetString` / `util.GetInt64` return the zero value for a missing
key). -/
structure Storage where
  lastFinishedCommit : String := ("")
  lastPeriodicRunTimestamp : Int := 0
  processStatus : String := ("")
  terraformState : String := ("")
deriving DecidableEq, Repr

/-- Outcomes of the fallible sub-steps of the Applier `processCommit`
(`policy.go:26-79`), in call order.  `policies` / `authRoles` are the
artifacts read from the checked-out tree; `applyPolicies` / `applyAuthRoles`
are the outcomes of pushing them to the Vault API. -/
structure CommitEnv where
  getConfig : Res Unit
  clone : Res Unit
  policies : Res (List (String × String))
  applyPolicies : Res Unit
  authRoles : Res (List (String × String × String))
  applyAuthRoles : Res Unit
deriving Repr

/-- Result of an Applier run: the storage as left behind, the log of values
written to the `last_finished_commit` key (in write order), and the
function's outcome. -/
structure ApplierResult where
  storage : Storage
  lfcWriteLog : List String
  outcome : Outcome
deriving DecidableEq, Repr

/-- From `policy.go:47-55` and `63-71`: the push to the Vault API runs only when
some artifacts were found in the tree; with none, the push is skipped and
the step trivially succeeds. -/
def pushIfAny {α : Type} (artifacts : List α) (push : Res Unit) : Res Unit :=
  match artifacts with
  | [] => .ok ()
  | _ :: _ => push

/-- The Applier `processCommit` (`policy.go:26-79`): config lookup, clone
pinned at the commit, read and push policy files, read and push auth-role
files, then — its final statement — `storeLastFinishedCommit`
(`policy.go:78`).  Every error path returns before that store; none of the
earlier steps writes to storage. -/
def processCommit (env : CommitEnv) (st : Storage) (hashCommit : String) : ApplierResult :=
  match env.getConfig with
  | .err e => ⟨st, [], .err (("unable to get git repository configuration: ") ++ e)⟩
  | .panicked m => ⟨st, [], .panicked m⟩
  | .ok _ =>
  match env.clone with
  | .err e =>
      ⟨st, [], .err ((("unable to clone repository at commit \"") ++ hashCommit ++ ("\": ")) ++ e)⟩
  | .panicked m => ⟨st, [], .panicked m⟩
  | .ok _ =>
  match env.policies with
  | .err e => ⟨st, [], .err (("unable to read policy files: ") ++ e)⟩
  | .panicked m => ⟨st, [], .panicked m⟩
  | .ok policies =>
  match pushIfAny policies env.applyPolicies with
  | .err e => ⟨st, [], .err (("unable to apply policies to Vault: ") ++ e)⟩
  | .panicked m => ⟨st, [], .panicked m⟩
  | .ok _ =>
  match env.authRoles with
  | .err e => ⟨st, [], .err (("unable to read auth role files: ") ++ e)⟩
  | .panicked m => ⟨st, [], .panicked m⟩
  | .ok authRoles =>
  match pushIfAny authRoles env.applyAuthRoles with
  | .err e => ⟨st, [], .err (("unable to apply auth roles to Vault: ") ++ e)⟩
  | .panicked m => ⟨st, [], .panicked m⟩
  | .ok _ =>
      ⟨{ st with lastFinishedCommit := hashCommit }, [hashCommit], .ok⟩

/-- The repository configuration fields the Coordinator consumes
(`git_repository.Configuration`): the poll period in seconds. -/
structure GitConfig where
  gitPollPeriod : Int
deriving DecidableEq, Repr

/-- Environment of one `processGit` attempt (`periodic.go:76-134`): the
configuration lookup, the wall-clock reading `systemClock.Now`, the result
of the Locator call `FindFirstSignedCommitFromHead` as a function of the
boundary it is invoked with, and the Applier's sub-step outcomes. -/
structure GitEnv where
  config : Res GitConfig
  now : Int
  findCommit : String → Res (Option String)
  commitEnv : CommitEnv

/-- Result of one `processGit` attempt, instrumented with how many times
the Locator and the Applier were invoked and with the log of writes to the
`last_finished_commit` key. -/
structure GitResult where
  storage : Storage
  outcome : Outcome
  locatorCalls : Nat
  applierCalls : Nat
  lfcWriteLog : List String
deriving DecidableEq, Repr

/-- The interval check `checkExceedingInterval` (`periodic.go:137-147`): true when strictly
more than `interval` seconds elapsed since the stored
`last_periodic_run_timestamp`. -/
def checkExceedingInterval (st : Storage) (now : Int) (interval : Int) : Bool :=
  decide (now - st.lastPeriodicRunTimestamp > interval)

/-- The Coordinator body `processGit` (`periodic.go:76-134`): config lookup,
poll-interval short-circuit, `updateLastRunTimeStamp` with the fresh
timestamp, Locator call, then either the no-new-signed-commit status, or
the Applier run followed by the success status and
`storeLastFinishedCommit` — or the FAILED status when the Applier returned
an error (a panic in the Applier propagates without writing the FAILED
status). -/
def processGit (env : GitEnv) (st : Storage) (lastFinishedCommit : String) : GitResult :=
  match env.config with
  | .err e => ⟨st, .err e, 0, 0, []⟩
  | .panicked m => ⟨st, .panicked m, 0, 0, []⟩
  | .ok config =>
  if ¬ checkExceedingInterval st env.now config.gitPollPeriod then
    ⟨st, .ok, 0, 0, []⟩
  else
    let st1 : Storage := { st with lastPeriodicRunTimestamp := env.now }
    match env.findCommit lastFinishedCommit with
    | .err e => ⟨st1, .err (("finding signed commit: ") ++ e), 1, 0, []⟩
    | .panicked m => ⟨st1, .panicked m, 1, 0, []⟩
    | .ok none =>
        ⟨{ st1 with processStatus := ("No new signed commit found") }, .ok, 1, 0, []⟩
    | .ok (some commitHash) =>
        let st2 : Storage :=
          { st1 with processStatus := (("Processing commit \"") ++ commitHash ++ ("\"")) }
        let r := processCommit env.commitEnv st2 commitHash
        match r.outcome with
        | .panicked m => ⟨r.storage, .panicked m, 1, 1, r.lfcWriteLog⟩
        | .err e =>
            ⟨{ r.storage with processStatus :=
                 (("FAILED processing commit \"") ++ commitHash ++ ("\": ")) ++ e },
              .err ((("processing commit \"") ++ commitHash ++ ("\": ")) ++ e),
              1, 1, r.lfcWriteLog⟩
        | .ok =>
            let st3 : Storage :=
              { r.storage with processStatus :=
                  (("Successfully processed commit \"") ++ commitHash ++ ("\"")) }
            ⟨{ st3 with lastFinishedCommit := commitHash }, .ok, 1, 1,
              r.lfcWriteLog ++ [commitHash]⟩

/-- The goroutine body `processGitInternal` (`periodic.go:65-74`): runs `processGit` with
`defer atomic.StoreUint32(b.processGitCASGuard, 0)` — the guard is stored
back to 0 (free) whatever the body does: normal return, returned error, or
panic (Go runs deferred calls during panic unwinding).  The returned `Bool`
is the guard value after the call completes. -/
def processGitInternal (env : GitEnv) (st : Storage) (lastFinishedCommit : String) :
    Bool × GitResult :=
  (false, processGit env st lastFinishedCommit)

/-- Result of one trigger call (`PeriodicTask`): the guard after the
reconciliation work (if any) completed, the resulting storage, the
instrumentation counters, and the error value `PeriodicTask` itself
returned. -/
structure TriggerResult where
  guard : Bool
  storage : Storage
  locatorCalls : Nat
  applierCalls : Nat
  returned : Option String
deriving Repr

/-- The trigger `PeriodicTask` (`periodic.go:34-61`): read `last_finished_commit`,
attempt `CompareAndSwapUint32(guard, 0, 1)`; when the guard is already
busy, return `nil` at once without any reconciliation work; otherwise run
`processGitInternal` (whose error is logged, not returned).  `guard = true`
models the busy value 1. -/
def PeriodicTask (env : GitEnv) (guard : Bool) (st : Storage) : TriggerResult :=
  let lastFinishedCommit := st.lastFinishedCommit
  if guard then
    ⟨guard, st, 0, 0, none⟩
  else
    let gr := processGitInternal env st lastFinishedCommit
    ⟨gr.1, gr.2.storage, gr.2.locatorCalls, gr.2.applierCalls, none⟩

/-! ## Declarative apply (`pkg/terraform/cli.go`) -/

/-- Environment of one `ApplyTerraformFromRepo` run (`cli.go:32-86`).  Each
terraform step carries the outcome of `cmd.Run()` and the content of
`terraform.tfstate` on disk after the step executed (the external tool may
write state even when it fails; `""` means the file is absent or empty). -/
structure TfEnv where
  mkdirTemp : Res Unit
  extract : Res (List String)
  loadState : Res Unit
  initRes : Res Unit
  diskAfterInit : String
  planRes : Res Unit
  diskAfterPlan : String
  applyRes : Res Unit
  diskAfterApply : String

/-- Result of one `ApplyTerraformFromRepo` run: the storage as left behind,
the outcome, whether the terraform binary was invoked, the state file
content on disk at the moment `terraform init` started, and the state file
content on disk when the function exited (what the deferred save saw). -/
structure TfResult where
  storage : Storage
  outcome : Outcome
  toolRan : Bool
  diskAtInit : String
  diskAtExit : String
deriving DecidableEq, Repr

/-- The deferred block of `cli.go:40-50`: read `terraform.tfstate` from the
temporary directory and, when it is non-empty, `saveTerraformState` to
storage; it runs on every exit from the function body — normal return,
returned error, or panic. -/
def tfDeferredSave (st : Storage) (disk : String) : Storage :=
  if disk ≠ ("") then { st with terraformState := disk } else st

/-- The pipeline `ApplyTerraformFromRepo` (`cli.go:32-86`): make the temporary directory
(the deferred state save is only registered after this succeeds), extract
the worktree files, return early when none, `loadTerraformState` (write the
stored blob, when non-empty, to `terraform.tfstate`), then run
`terraform init`, `plan`, `apply`, stopping at the first failure.  On every
exit after the defer is registered, the deferred block persists whatever
non-empty state file is on disk. -/
def ApplyTerraformFromRepo (env : TfEnv) (st : Storage) : TfResult :=
  match env.mkdirTemp with
  | .err e => ⟨st, .err (("creating temporary directory: ") ++ e), false, (""), ("")⟩
  | .panicked m => ⟨st, .panicked m, false, (""), ("")⟩
  | .ok _ =>
  let exit : String → Outcome → Bool → String → TfResult := fun disk o ran diskInit =>
    ⟨tfDeferredSave st disk, o, ran, diskInit, disk⟩
  match env.extract with
  | .err e => exit ("") (.err (("extracting terraform files: ") ++ e)) false ("")
  | .panicked m => exit ("") (.panicked m) false ("")
  | .ok tfFiles =>
  match tfFiles with
  | [] =>
    exit ("") .ok false ("")
  | _ :: _ =>
  match env.loadState with
  | .err e => exit ("") (.err (("loading terraform state: ") ++ e)) false ("")
  | .panicked m => exit ("") (.panicked m) false ("")
  | .ok _ =>
  let diskLoaded := st.terraformState
  match env.initRes with
  | .err e => exit env.diskAfterInit (.err (("terraform init: ") ++ e)) true diskLoaded
  | .panicked m => exit env.diskAfterInit (.panicked m) true diskLoaded
  | .ok _ =>
  match env.planRes with
  | .err e => exit env.diskAfterPlan (.err (("terraform plan: ") ++ e)) true diskLoaded
  | .panicked m => exit env.diskAfterPlan (.panicked m) true diskLoaded
  | .ok _ =>
  match env.applyRes with
  | .err e => exit env.diskAfterApply (.err (("terraform apply: ") ++ e)) true diskLoaded
  | .panicked m => exit env.diskAfterApply (.panicked m) true diskLoaded
  | .ok _ =>
  exit env.diskAfterApply .ok true diskLoaded

/-! ## Worktree file-extraction passes (`cli.go`, `policy.go`) -/

/-- One entry of the checked-out worktree as `pkg/git.ForEachWorktreeFile`
presents it to its callback: the path inside the tree, the symlink target
(`""` for a regular entry), whether the entry is a directory, and the
readable content.  The iteration itself (modelled as a pass over this
list) lives in `pkg/git`, outside the provided sources; its callbacks —
the subject of the claim — are in `cli.go` and `policy.go`. -/
structure WorktreeEntry where
  path : String
  link : String
  isDir : Bool
  content : String
deriving DecidableEq, Repr

/-- Model of `filepath.Base`: the last component of a slash-separated path. -/
def baseName (p : String) : String :=
  ((p.splitOn ("/")).getLast?).getD p

/-- Model of `strings.TrimSuffix`. -/
def trimSuffix (s suffix : String) : String :=
  if s.endsWith suffix then s.dropRight suffix.length else s

/-- The per-entry callback of `extractTerraformFiles` (`cli.go:92-120`):
skip directory entries and symlink entries, copy every other entry into
the target directory (modelled as the (target path, content) pair the
write produces). -/
def extractEntry (targetDir : String) (e : WorktreeEntry) : Option (String × String) :=
  if e.isDir ∨ e.link ≠ ("") then none
  else some (targetDir ++ ("/") ++ e.path, e.content)

/-- The pass `extractTerraformFiles` (`cli.go:89-128`), restricted to its observable
effect: the files written under the temporary directory. -/
def extractTerraformFiles (targetDir : String) (tree : List WorktreeEntry) :
    List (String × String) :=
  tree.filterMap (extractEntry targetDir)

/-- The per-entry callback of `readPolicyFiles` (`policy.go:126-157`): keep
regular (non-directory, non-symlink) `.hcl` files under `policies/`, keyed
by base name without the extension. -/
def policyEntry (e : WorktreeEntry) : Option (String × String) :=
  if ¬ e.path.startsWith ("policies/") then none
  else if e.isDir ∨ e.link ≠ ("") then none
  else if ¬ e.path.endsWith (".hcl") then none
  else
    let policyName := trimSuffix (baseName e.path) (".hcl")
    if policyName = ("") then none
    else some (policyName, e.content)

/-- The pass `readPolicyFiles` over the tree (`policy.go:123-164`). -/
def readPolicyFiles (tree : List WorktreeEntry) : List (String × String) :=
  tree.filterMap policyEntry

/-- An auth role read from the tree: auth method, role name, raw content. -/
structure AuthRoleInfo where
  authMethod : String
  roleName : String
  content : String
deriving DecidableEq, Repr

/-- The pass `readAuthRoles` (`policy.go:235-296`): keep regular `.json` files
matching `auth/{method}/role/{name}.json`; invalid JSON content aborts the
whole pass with an error (`jsonValid` stands for `json.Unmarshal`
succeeding). -/
def readAuthRoles (jsonValid : String → Bool) :
    List WorktreeEntry → Except String (List AuthRoleInfo)
  | [] => .ok []
  | e :: rest =>
    if ¬ e.path.startsWith ("auth/") then readAuthRoles jsonValid rest
    else if e.isDir ∨ e.link ≠ ("") then readAuthRoles jsonValid rest
    else if ¬ e.path.endsWith (".json") then readAuthRoles jsonValid rest
    else
      let pathParts := e.path.splitOn ("/")
      if pathParts.length ≠ 4 ∨ pathParts.get? 0 ≠ some ("auth") ∨
          pathParts.get? 2 ≠ some ("role") then
        readAuthRoles jsonValid rest
      else
        let authMethod := (pathParts.get? 1).getD ("")
        let roleName := trimSuffix ((pathParts.get? 3).getD ("")) (".json")
        if roleName = ("") then readAuthRoles jsonValid rest
        else if ¬ jsonValid e.content then
          .error ((("invalid JSON in auth role file \"") ++ e.path) ++ ("\""))
        else
          match readAuthRoles jsonValid rest with
          | .error msg => .error msg
          | .ok rs => .ok (⟨authMethod, roleName, e.content⟩ :: rs)

/-- A worktree entry survives the common skip test of all three extraction
passes when it is neither a directory nor a symlink. -/
def regularFile (e : WorktreeEntry) : Bool :=
  ¬ e.isDir ∧ e.link = ("")

/-! ## Helper lemmas -/

/-- Any commit the walk returns passed both temporal guards: its committer
date is not in the future and not before the last finished commit's date. -/
theorem walkLog_some_dates (b : String) (tr : List String) (q : Nat) (now : Int)
    (lfc : Option CommitInfo) (log : List Commit) :
    ∀ ci : CommitInfo, walkLog b tr q now lfc log = some ci →
      ci.commitDate ≤ now ∧ ∀ l, lfc = some l → l.commitDate ≤ ci.commitDate := by
  induction log with
  | nil =>
    intro ci h
    simp [walkLog] at h
  | cons c rest ih =>
    intro ci h
    by_cases h1 : (b ≠ ("") ∧ c.hash = b)
    · rw [walkLog, if_pos h1] at h
      exact Option.noConfusion h
    · rw [walkLog, if_neg h1] at h
      by_cases h2 : (¬ VerifyCommitSignatures tr q c.signatures = true)
      · rw [if_pos h2] at h
        exact ih ci h
      · rw [if_neg h2] at h
        by_cases h3 : (now < c.committerDate)
        · rw [if_pos h3] at h
          exact ih ci h
        · rw [if_neg h3] at h
          by_cases h4 : (olderThanLastFinished lfc c.committerDate = true)
          · rw [if_pos h4] at h
            exact ih ci h
          · rw [if_neg h4] at h
            have hci : ci = ⟨c.hash, c.committerDate⟩ := (Option.some.inj h).symm
            subst hci
            refine ⟨le_of_not_lt h3, ?_⟩
            intro l hl
            rw [hl] at h4
            simp [olderThanLastFinished] at h4
            exact h4

/-- The Applier either runs to completion — in which case its one and only
storage write sets `last_finished_commit` to the processed hash — or it
stops at a failing step having written nothing. -/
theorem processCommit_spec (env : CommitEnv) (st : Storage) (h : String) :
    processCommit env st h =
        ⟨{ st with lastFinishedCommit := h }, [h], .ok⟩ ∨
      ((processCommit env st h).storage = st ∧
        (processCommit env st h).lfcWriteLog = [] ∧
        (processCommit env st h).outcome ≠ .ok) := by
  rcases env with ⟨gc, cl, po, ap, ar, aa⟩
  rw [processCommit.eq_def]
  dsimp only
  cases gc with
  | err e => right; simp
  | panicked m => right; simp
  | ok u =>
    cases cl with
    | err e => right; simp
    | panicked m => right; simp
    | ok u =>
      cases po with
      | err e => right; simp
      | panicked m => right; simp
      | ok policies =>
        dsimp only
        cases hp : pushIfAny policies ap with
        | err e => right; simp
        | panicked m => right; simp
        | ok u =>
          dsimp only
          cases ar with
          | err e => right; simp
          | panicked m => right; simp
          | ok authRoles =>
            dsimp only
            cases ha : pushIfAny authRoles aa with
            | err e => right; simp
            | panicked m => right; simp
            | ok u => left; rfl

/-- The Applier's outcome is a function of its environment and the commit
hash alone: it never reads the checkpoint storage. -/
theorem processCommit_outcome_indep (env : CommitEnv) (st st' : Storage) (h : String) :
    (processCommit env st h).outcome = (processCommit env st' h).outcome := by
  rcases env with ⟨gc, cl, po, ap, ar, aa⟩
  rw [processCommit.eq_def, processCommit.eq_def]
  dsimp only
  cases gc with
  | err e => rfl
  | panicked m => rfl
  | ok u =>
    cases cl with
    | err e => rfl
    | panicked m => rfl
    | ok u =>
      cases po with
      | err e => rfl
      | panicked m => rfl
      | ok policies =>
        dsimp only
        cases hp : pushIfAny policies ap with
        | err e => rfl
        | panicked m => rfl
        | ok u =>
          dsimp only
          cases ar with
          | err e => rfl
          | panicked m => rfl
          | ok authRoles =>
            dsimp only
            cases ha : pushIfAny authRoles aa with
            | err e => rfl
            | panicked m => rfl
            | ok u => rfl

/-! ## Claim theorems: Signed-Commit Locator -/

/-- C5: every commit the Locator's backward walk returns passed the two
temporal guards — its committer date is not strictly after the current
wall-clock time, and when a previously finished commit with a known
committer date exists, its committer date is not strictly before that
date; commits violating either guard are skipped and never returned. -/
theorem locator_temporal_rejection (repo : GitRepo) (trustedKeys : List String)
    (requiredQuorum : Nat) (currentTime : Int)
    (lastFinishedCommit : Option CommitInfo) (ci : CommitInfo)
    (h : FindFirstSignedCommitFromHead repo trustedKeys requiredQuorum currentTime
        lastFinishedCommit = some ci) :
    ci.commitDate ≤ currentTime ∧
      ∀ lfc, lastFinishedCommit = some lfc → lfc.commitDate ≤ ci.commitDate := by
  rw [FindFirstSignedCommitFromHead.eq_def] at h
  cases lastFinishedCommit with
  | none =>
    dsimp only at h
    rw [if_neg (by simp)] at h
    exact walkLog_some_dates ("") trustedKeys requiredQuorum currentTime none repo.log ci h
  | some l =>
    dsimp only at h
    by_cases hb : (l.commitHash ≠ ("") ∧ l.commitHash = repo.headHash)
    · rw [if_pos hb] at h
      exact Option.noConfusion h
    · rw [if_neg hb] at h
      exact walkLog_some_dates l.commitHash trustedKeys requiredQuorum currentTime
        (some l) repo.log ci h

/-- Witness for `locator_temporal_rejection`: a two-commit history where
the tip is future-dated (skipped) and its parent qualifies. -/
theorem locator_temporal_rejection_witness :
    (⟨("b"), 4⟩ : CommitInfo).commitDate ≤ (10 : Int) ∧
      ∀ lfc, (some (⟨("a"), 3⟩ : CommitInfo) = some lfc) →
        lfc.commitDate ≤ (⟨("b"), 4⟩ : CommitInfo).commitDate :=
  locator_temporal_rejection
    ⟨("c"), [⟨("c"), 99, [("k1")]⟩, ⟨("b"), 4, [("k1")]⟩]⟩
    [("k1")] 1 10 (some ⟨("a"), 3⟩) ⟨("b"), 4⟩ (by decide)

/-- C1 counterexample: in the history `[C5,C4,C3,C2,C1]` (tip C5, boundary
C3, every commit quorum-valid and date-valid), the locator returns C5 —
the tip, the first qualifying commit of the backward walk — and not C4 as
the claim states. -/
theorem locator_boundary_exclusion_cex :
    FindFirstSignedCommitFromHead
        ⟨("c5"), [⟨("c5"), 5, [("k1")]⟩, ⟨("c4"), 4, [("k1")]⟩, ⟨("c3"), 3, [("k1")]⟩,
          ⟨("c2"), 2, [("k1")]⟩, ⟨("c1"), 1, [("k1")]⟩]⟩
        [("k1")] 1 10 (some ⟨("c3"), 3⟩) = some ⟨("c5"), 5⟩ ∧
    FindFirstSignedCommitFromHead
        ⟨("c5"), [⟨("c5"), 5, [("k1")]⟩, ⟨("c4"), 4, [("k1")]⟩, ⟨("c3"), 3, [("k1")]⟩,
          ⟨("c2"), 2, [("k1")]⟩, ⟨("c1"), 1, [("k1")]⟩]⟩
        [("k1")] 1 10 (some ⟨("c3"), 3⟩) ≠ some ⟨("c4"), 4⟩ := by
  constructor
  · decide
  · decide

/-- C1 amended: given a history `[C5,C4,C3,C2,C1]` (C5 the tip) where every
commit is individually quorum-valid and not future-dated, the commits ahead
of the boundary are not older than the boundary's date, and the boundary is
C3, the locator returns **C5** — the first qualifying commit encountered
walking backwards from the tip — and in particular neither C3 nor anything
at or behind the boundary. -/
theorem locator_boundary_exclusion_amended
    (c5 c4 c3 c2 c1 : Commit) (trustedKeys : List String) (requiredQuorum : Nat)
    (currentTime : Int)
    (_hbne : c3.hash ≠ (""))
    (hb5 : c5.hash ≠ c3.hash)
    (hq5 : VerifyCommitSignatures trustedKeys requiredQuorum c5.signatures = true)
    (_hq4 : VerifyCommitSignatures trustedKeys requiredQuorum c4.signatures = true)
    (_hq3 : VerifyCommitSignatures trustedKeys requiredQuorum c3.signatures = true)
    (_hq2 : VerifyCommitSignatures trustedKeys requiredQuorum c2.signatures = true)
    (_hq1 : VerifyCommitSignatures trustedKeys requiredQuorum c1.signatures = true)
    (ht5 : c5.committerDate ≤ currentTime)
    (_ht4 : c4.committerDate ≤ currentTime)
    (_ht3 : c3.committerDate ≤ currentTime)
    (_ht2 : c2.committerDate ≤ currentTime)
    (_ht1 : c1.committerDate ≤ currentTime)
    (hm5 : c3.committerDate ≤ c5.committerDate)
    (_hm4 : c3.committerDate ≤ c4.committerDate) :
    FindFirstSignedCommitFromHead ⟨c5.hash, [c5, c4, c3, c2, c1]⟩ trustedKeys
        requiredQuorum currentTime (some ⟨c3.hash, c3.committerDate⟩) =
      some ⟨c5.hash, c5.committerDate⟩ := by
  have hb5' : c3.hash ≠ c5.hash := Ne.symm hb5
  have hlt5 : ¬ (currentTime < c5.committerDate) := not_lt.mpr ht5
  have hlt5' : ¬ (c5.committerDate < c3.committerDate) := not_lt.mpr hm5
  rw [FindFirstSignedCommitFromHead]
  simp only []
  rw [if_neg (by intro hc; exact hb5' hc.2)]
  rw [walkLog, if_neg (by intro hc; exact hb5 hc.2)]
  rw [if_neg (by simp [hq5])]
  rw [if_neg hlt5]
  rw [if_neg (by simp [olderThanLastFinished, hlt5'])]

/-- Witness for `locator_boundary_exclusion_amended` at the concrete
counterexample history. -/
theorem locator_boundary_exclusion_amended_witness :
    FindFirstSignedCommitFromHead
        ⟨("c5"), [⟨("c5"), 5, [("k1")]⟩, ⟨("c4"), 4, [("k1")]⟩, ⟨("c3"), 3, [("k1")]⟩,
          ⟨("c2"), 2, [("k1")]⟩, ⟨("c1"), 1, [("k1")]⟩]⟩
        [("k1")] 1 10 (some ⟨("c3"), 3⟩) = some ⟨("c5"), 5⟩ :=
  locator_boundary_exclusion_amended
    ⟨("c5"), 5, [("k1")]⟩ ⟨("c4"), 4, [("k1")]⟩ ⟨("c3"), 3, [("k1")]⟩
    ⟨("c2"), 2, [("k1")]⟩ ⟨("c1"), 1, [("k1")]⟩ [("k1")] 1 10
    (by decide) (by decide) (by decide) (by decide) (by decide) (by decide)
    (by decide) (by decide) (by decide) (by decide) (by decide) (by decide)
    (by decide) (by decide)

/-- C6: the signature-quorum check counts distinct trusted keys with valid
signatures, not total signature count — a commit signed twice by the same
key fails a quorum of 2, a commit signed once each by two distinct trusted
keys passes it, and a quorum of 0 accepts any commit. -/
theorem quorum_counts_distinct_keys (k1 k2 : String) (hne : k1 ≠ k2) :
    VerifyCommitSignatures [k1, k2] 2 [k1, k1] = false ∧
    VerifyCommitSignatures [k1, k2] 2 [k1, k2] = true ∧
    ∀ (trustedKeys sigs : List String),
      VerifyCommitSignatures trustedKeys 0 sigs = true := by
  refine ⟨?_, ?_, ?_⟩
  · simp [VerifyCommitSignatures, List.dedup_cons_of_mem]
  · simp [VerifyCommitSignatures, List.dedup_cons_of_not_mem, hne]
  · intro trustedKeys sigs
    simp [VerifyCommitSignatures]

/-- Witness for `quorum_counts_distinct_keys` at two concrete distinct
keys. -/
theorem quorum_counts_distinct_keys_witness :
    VerifyCommitSignatures [("k1"), ("k2")] 2 [("k1"), ("k1")] = false ∧
    VerifyCommitSignatures [("k1"), ("k2")] 2 [("k1"), ("k2")] = true ∧
    ∀ (trustedKeys sigs : List String),
      VerifyCommitSignatures trustedKeys 0 sigs = true :=
  quorum_counts_distinct_keys ("k1") ("k2") (by decide)

/-! ## Sample environments for concrete runs -/

/-- An Applier environment in which every sub-step succeeds and one policy
file is found. -/
def applierEnvAllOk : CommitEnv :=
  ⟨.ok (), .ok (), .ok [(("p1"), ("rules"))], .ok (), .ok [], .ok ()⟩

/-- A Coordinator environment with poll period 60s, clock at 100, a Locator
that finds commit `abc`, and an all-successful Applier. -/
def gitEnvAllOk : GitEnv :=
  ⟨.ok ⟨60⟩, 100, fun _ => .ok (some ("abc")), applierEnvAllOk⟩

/-- The empty storage: no key present yet. -/
def storageEmpty : Storage := {}

/-! ## Claim theorems: Coordinator (`processGit`, `PeriodicTask`) -/

/-- C2: when the Applier returns an error for commit `h`, the attempt
leaves `last_finished_commit` exactly as it was, and `process_status` holds
the failure message naming `h` and the error. -/
theorem coordinator_no_advance_on_failure
    (env : GitEnv) (st : Storage) (lf h e : String) (c : GitConfig)
    (hconfig : env.config = .ok c)
    (hexceed : checkExceedingInterval st env.now c.gitPollPeriod = true)
    (hfind : env.findCommit lf = .ok (some h))
    (happ : (processCommit env.commitEnv st h).outcome = .err e) :
    (processGit env st lf).storage.lastFinishedCommit = st.lastFinishedCommit ∧
    (processGit env st lf).storage.processStatus =
      (("FAILED processing commit \"") ++ h ++ ("\": ")) ++ e := by
  have hkey : ∀ s : Storage, (processCommit env.commitEnv s h).outcome = .err e :=
    fun s => (processCommit_outcome_indep env.commitEnv s st h).trans happ
  rw [processGit.eq_def, hconfig]
  dsimp only
  rw [if_neg (by simp [hexceed]), hfind]
  dsimp only
  have hstep := processCommit_spec env.commitEnv
    ({ st with
        lastPeriodicRunTimestamp := env.now,
        processStatus := (("Processing commit \"") ++ h ++ ("\"")) }) h
  rcases hstep with hspec | ⟨hs, hl, ho⟩
  · exfalso
    have hko := hkey ({ st with
        lastPeriodicRunTimestamp := env.now,
        processStatus := (("Processing commit \"") ++ h ++ ("\"")) })
    rw [hspec] at hko
    exact Outcome.noConfusion hko
  · rw [hkey]
    dsimp only
    simp [hs]

/-- Witness for `coordinator_no_advance_on_failure`: a failing clone step
leaves the checkpoint at `prev` and records the FAILED status. -/
theorem coordinator_no_advance_on_failure_witness :
    (processGit ⟨.ok ⟨60⟩, 100, fun _ => .ok (some ("abc")),
         ⟨.ok (), .err ("clone failed"), .ok [], .ok (), .ok [], .ok ()⟩⟩
       ⟨("prev"), 0, (""), ("")⟩ ("prev")).storage.lastFinishedCommit = ("prev") ∧
    (processGit ⟨.ok ⟨60⟩, 100, fun _ => .ok (some ("abc")),
         ⟨.ok (), .err ("clone failed"), .ok [], .ok (), .ok [], .ok ()⟩⟩
       ⟨("prev"), 0, (""), ("")⟩ ("prev")).storage.processStatus =
      (("FAILED processing commit \"") ++ ("abc") ++ ("\": ")) ++
        ("unable to clone repository at commit \"abc\": clone failed") :=
  coordinator_no_advance_on_failure _ _ _ ("abc")
    ("unable to clone repository at commit \"abc\": clone failed") ⟨60⟩
    (by decide) (by decide) (by decide) (by decide)

/-- C3 counterexample: in a fully successful attempt the
`last_finished_commit` key is written **twice** — and the second conjunct
pins the first write on the Applier `processCommit` itself
(`policy.go:78`), a component below the Coordinator. -/
theorem checkpoint_single_writer_cex :
    ((processGit gitEnvAllOk storageEmpty ("")).lfcWriteLog).length = 2 ∧
    (processCommit applierEnvAllOk storageEmpty ("abc")).lfcWriteLog = [("abc")] := by
  constructor
  · rfl
  · rfl

/-- C3 amended: on an attempt whose Applier run succeeds,
`last_finished_commit` is written exactly **twice** — once by the Applier
`processCommit` as its final step and once by the Coordinator `processGit`
after the Applier returns — both times with exactly the hash the Applier
was called with; on every other attempt the key is not written at all and
keeps its prior value. -/
theorem checkpoint_write_discipline (env : GitEnv) (st : Storage) (lf : String) :
    ((processGit env st lf).outcome = .ok ∧ (processGit env st lf).applierCalls = 1 →
      ∃ h, env.findCommit lf = .ok (some h) ∧
        (processGit env st lf).lfcWriteLog = [h, h] ∧
        (processGit env st lf).storage.lastFinishedCommit = h) ∧
    (¬ ((processGit env st lf).outcome = .ok ∧ (processGit env st lf).applierCalls = 1) →
      (processGit env st lf).lfcWriteLog = [] ∧
      (processGit env st lf).storage.lastFinishedCommit = st.lastFinishedCommit) := by
  cases hc : env.config with
  | err e => rw [processGit.eq_def, hc]; dsimp only; simp
  | panicked m => rw [processGit.eq_def, hc]; dsimp only; simp
  | ok c =>
    rw [processGit.eq_def, hc]
    dsimp only
    by_cases hiv : checkExceedingInterval st env.now c.gitPollPeriod = true
    · rw [if_neg (by simp [hiv])]
      cases hf : env.findCommit lf with
      | err e => simp
      | panicked m => simp
      | ok oc =>
        cases oc with
        | none => simp
        | some h =>
          dsimp only
          have hstep := processCommit_spec env.commitEnv
            ({ st with
                lastPeriodicRunTimestamp := env.now,
                processStatus := (("Processing commit \"") ++ h ++ ("\"")) }) h
          rcases hstep with hspec | ⟨hs, hl, ho⟩
          · rw [hspec]
            dsimp only
            constructor
            · intro hok
              exact ⟨h, rfl, rfl, rfl⟩
            · intro hno
              exact absurd ⟨rfl, rfl⟩ hno
          · cases ho2 : (processCommit env.commitEnv
                ({ st with
                    lastPeriodicRunTimestamp := env.now,
                    processStatus := (("Processing commit \"") ++ h ++ ("\"")) }) h).outcome with
            | ok => exact absurd ho2 ho
            | err e =>
              dsimp only
              constructor
              · rintro ⟨hq, hn⟩
                exact Outcome.noConfusion hq
              · intro hno
                simp [hs, hl]
            | panicked m =>
              dsimp only
              constructor
              · rintro ⟨hq, hn⟩
                exact Outcome.noConfusion hq
              · intro hno
                simp [hs, hl]
    · rw [if_pos (by simp [hiv])]
      simp

/-- Witness for `checkpoint_write_discipline` at a fully successful
concrete attempt: two writes, both of the processed hash `abc`, which the
checkpoint then holds. -/
theorem checkpoint_write_discipline_witness :
    ∃ h, gitEnvAllOk.findCommit ("") = .ok (some h) ∧
      (processGit gitEnvAllOk storageEmpty ("")).lfcWriteLog = [h, h] ∧
      (processGit gitEnvAllOk storageEmpty ("")).storage.lastFinishedCommit = h :=
  (checkpoint_write_discipline gitEnvAllOk storageEmpty ("")).1 ⟨rfl, rfl⟩

/-- C4: a trigger that finds the in-flight guard busy returns nil
immediately — no Locator call, no Applier call, storage untouched, guard
left busy for its owner — and the reconciliation body resets the guard to
free on every exit path (normal return, returned error, or panic: the
deferred store is unconditional, and `processGit`'s outcome — quantified
over every environment, including erroring and panicking ones — cannot
prevent it). -/
theorem guard_exclusive_and_released :
    (∀ (env : GitEnv) (st : Storage),
        PeriodicTask env true st = ⟨true, st, 0, 0, none⟩) ∧
    (∀ (env : GitEnv) (st : Storage) (lf : String),
        (processGitInternal env st lf).1 = false) :=
  ⟨fun _ _ => rfl, fun _ _ _ => rfl⟩

/-- C7: when the time elapsed since the stored
`last_periodic_run_timestamp` does not exceed the configured poll interval,
`processGit` returns nil without invoking the Locator, and the storage —
every checkpoint key — is left exactly as it was. -/
theorem poll_interval_short_circuit (env : GitEnv) (st : Storage) (lf : String)
    (c : GitConfig) (hconfig : env.config = .ok c)
    (hint : env.now - st.lastPeriodicRunTimestamp ≤ c.gitPollPeriod) :
    processGit env st lf = ⟨st, .ok, 0, 0, []⟩ := by
  have hc : checkExceedingInterval st env.now c.gitPollPeriod = false := by
    simp [checkExceedingInterval]
    omega
  rw [processGit.eq_def, hconfig]
  dsimp only
  rw [if_pos (by simp [hc])]

/-- Witness for `poll_interval_short_circuit`: with poll period 60s and a
last run 10s ago, the attempt is a no-op. -/
theorem poll_interval_short_circuit_witness :
    processGit ⟨.ok ⟨60⟩, 100, fun _ => .ok (some ("abc")),
        ⟨.ok (), .ok (), .ok [], .ok (), .ok [], .ok ()⟩⟩
      ⟨("prev"), 90, (""), ("")⟩ ("prev") =
      ⟨⟨("prev"), 90, (""), ("")⟩, .ok, 0, 0, []⟩ :=
  poll_interval_short_circuit _ _ _ ⟨60⟩ (by decide) (by decide)

/-- C8: once an attempt passes the poll-interval check,
`last_periodic_run_timestamp` is persisted with the attempt's wall-clock
reading whatever the outcome — Locator error, no commit found, Applier
failure, Applier panic, or success. -/
theorem poll_timestamp_persisted (env : GitEnv) (st : Storage) (lf : String)
    (c : GitConfig) (hconfig : env.config = .ok c)
    (hexceed : checkExceedingInterval st env.now c.gitPollPeriod = true) :
    (processGit env st lf).storage.lastPeriodicRunTimestamp = env.now := by
  rw [processGit.eq_def, hconfig]
  dsimp only
  rw [if_neg (by simp [hexceed])]
  cases hf : env.findCommit lf with
  | err e => simp
  | panicked m => simp
  | ok oc =>
    cases oc with
    | none => simp
    | some h =>
      dsimp only
      have hstep := processCommit_spec env.commitEnv
        ({ st with
            lastPeriodicRunTimestamp := env.now,
            processStatus := (("Processing commit \"") ++ h ++ ("\"")) }) h
      rcases hstep with hspec | ⟨hs, hl, ho⟩
      · rw [hspec]
      · cases ho2 : (processCommit env.commitEnv
            ({ st with
                lastPeriodicRunTimestamp := env.now,
                processStatus := (("Processing commit \"") ++ h ++ ("\"")) }) h).outcome with
        | ok => exact absurd ho2 ho
        | err e => simp [hs]
        | panicked m => simp [hs]

/-- Witness for `poll_timestamp_persisted`: a failing Applier run still
leaves the fresh poll timestamp behind. -/
theorem poll_timestamp_persisted_witness :
    (processGit ⟨.ok ⟨60⟩, 100, fun _ => .ok (some ("abc")),
        ⟨.ok (), .err ("clone failed"), .ok [], .ok (), .ok [], .ok ()⟩⟩
      ⟨("prev"), 0, (""), ("")⟩ ("prev")).storage.lastPeriodicRunTimestamp = 100 :=
  poll_timestamp_persisted _ _ _ ⟨60⟩ (by decide) (by decide)

/-! ## Claim theorems: declarative apply and extraction passes -/

/-- What the deferred block persists: the non-empty state file, or nothing
at all (leaving storage untouched) when the file is absent or empty. -/
theorem tfDeferredSave_spec (st : Storage) (d : String) :
    (d ≠ ("") → (tfDeferredSave st d).terraformState = d) ∧
    (d = ("") → tfDeferredSave st d = st) := by
  by_cases hd : d = ("")
  · subst hd
    simp [tfDeferredSave]
  · simp [tfDeferredSave, hd]

/-- C9: every `ApplyTerraformFromRepo` run loads the persisted state blob
before the tool runs — the disk state at the moment `terraform init`
starts is exactly the stored blob — and on every exit path (success, or
init/plan/apply error) the non-empty state file found on disk is saved
back to storage; when no state file is present the storage is left
untouched. -/
theorem terraform_state_roundtrip (env : TfEnv) (st : Storage) :
    ((ApplyTerraformFromRepo env st).toolRan = true →
      (ApplyTerraformFromRepo env st).diskAtInit = st.terraformState) ∧
    ((ApplyTerraformFromRepo env st).diskAtExit ≠ ("") →
      (ApplyTerraformFromRepo env st).storage.terraformState =
        (ApplyTerraformFromRepo env st).diskAtExit) ∧
    ((ApplyTerraformFromRepo env st).diskAtExit = ("") →
      (ApplyTerraformFromRepo env st).storage = st) := by
  rcases env with ⟨mk, ex, lo, ir, di, pr, dp, ar, da⟩
  rw [ApplyTerraformFromRepo.eq_def]
  dsimp only
  cases mk with
  | err e => simp
  | panicked m => simp
  | ok u =>
    dsimp only
    cases ex with
    | err e =>
      dsimp only
      exact ⟨fun hr => absurd hr (by decide), (tfDeferredSave_spec st _).1,
        (tfDeferredSave_spec st _).2⟩
    | panicked m =>
      dsimp only
      exact ⟨fun hr => absurd hr (by decide), (tfDeferredSave_spec st _).1,
        (tfDeferredSave_spec st _).2⟩
    | ok tfFiles =>
      dsimp only
      cases tfFiles with
      | nil =>
        dsimp only
        exact ⟨fun hr => absurd hr (by decide), (tfDeferredSave_spec st _).1,
          (tfDeferredSave_spec st _).2⟩
      | cons f fs =>
        dsimp only
        cases lo with
        | err e =>
          dsimp only
          exact ⟨fun hr => absurd hr (by decide), (tfDeferredSave_spec st _).1,
            (tfDeferredSave_spec st _).2⟩
        | panicked m =>
          dsimp only
          exact ⟨fun hr => absurd hr (by decide), (tfDeferredSave_spec st _).1,
            (tfDeferredSave_spec st _).2⟩
        | ok u2 =>
          dsimp only
          cases ir with
          | err e =>
            dsimp only
            exact ⟨fun hr => rfl, (tfDeferredSave_spec st _).1, (tfDeferredSave_spec st _).2⟩
          | panicked m =>
            dsimp only
            exact ⟨fun hr => rfl, (tfDeferredSave_spec st _).1, (tfDeferredSave_spec st _).2⟩
          | ok u3 =>
            dsimp only
            cases pr with
            | err e =>
              dsimp only
              exact ⟨fun hr => rfl, (tfDeferredSave_spec st _).1, (tfDeferredSave_spec st _).2⟩
            | panicked m =>
              dsimp only
              exact ⟨fun hr => rfl, (tfDeferredSave_spec st _).1, (tfDeferredSave_spec st _).2⟩
            | ok u4 =>
              dsimp only
              cases ar with
              | err e =>
                dsimp only
                exact ⟨fun hr => rfl, (tfDeferredSave_spec st _).1,
                  (tfDeferredSave_spec st _).2⟩
              | panicked m =>
                dsimp only
                exact ⟨fun hr => rfl, (tfDeferredSave_spec st _).1,
                  (tfDeferredSave_spec st _).2⟩
              | ok u5 =>
                dsimp only
                exact ⟨fun hr => rfl, (tfDeferredSave_spec st _).1,
                  (tfDeferredSave_spec st _).2⟩

/-- A declarative-apply environment in which `terraform plan` fails after
leaving a partial state file on disk. -/
def tfEnvPlanFails : TfEnv :=
  ⟨.ok (), .ok [("main.tf")], .ok (), .ok (), (""), .err ("plan failed"),
    ("partial-state"), .ok (), ("")⟩

/-- Witness for `terraform_state_roundtrip`: even though `terraform plan`
failed, the partial state file left on disk is persisted to storage by the
deferred save. -/
theorem terraform_state_roundtrip_witness :
    (ApplyTerraformFromRepo tfEnvPlanFails storageEmpty).storage.terraformState =
      (ApplyTerraformFromRepo tfEnvPlanFails storageEmpty).diskAtExit :=
  (terraform_state_roundtrip tfEnvPlanFails storageEmpty).2.1 (by decide)

/-- C10: the three file-extraction passes over a checked-out tree —
terraform file extraction, policy-file reading and auth-role reading —
skip every directory entry and every symlink entry: dropping all such
entries from the tree changes none of the three outputs, so no content
presented through a directory or symlink entry is ever written to the
temporary directory or pushed to the target store. -/
theorem extraction_skips_non_regular (targetDir : String) (jsonValid : String → Bool)
    (tree : List WorktreeEntry) :
    extractTerraformFiles targetDir (tree.filter regularFile) =
      extractTerraformFiles targetDir tree ∧
    readPolicyFiles (tree.filter regularFile) = readPolicyFiles tree ∧
    readAuthRoles jsonValid (tree.filter regularFile) =
      readAuthRoles jsonValid tree := by
  induction tree with
  | nil => exact ⟨rfl, rfl, rfl⟩
  | cons e t ih =>
    obtain ⟨ih1, ih2, ih3⟩ := ih
    simp only [extractTerraformFiles] at ih1
    simp only [readPolicyFiles] at ih2
    by_cases hr : regularFile e = true
    · rw [List.filter_cons_of_pos hr]
      refine ⟨?_, ?_, ?_⟩
      · simp only [extractTerraformFiles, List.filterMap_cons, ih1]
      · simp only [readPolicyFiles, List.filterMap_cons, ih2]
      · simp only [readAuthRoles, ih3]
    · have hcond : e.isDir = true ∨ e.link ≠ ("") := by
        by_contra hno
        push_neg at hno
        exact hr (by simp [regularFile, hno.1, hno.2])
      have hex : extractEntry targetDir e = none := by
        simp [extractEntry, hcond]
      have hpo : policyEntry e = none := by
        by_cases hsw : e.path.startsWith ("policies/") = true
        · simp [policyEntry, hsw, hcond]
        · simp [policyEntry, hsw]
      rw [List.filter_cons_of_neg hr]
      refine ⟨?_, ?_, ?_⟩
      · simp only [extractTerraformFiles, List.filterMap_cons, hex, ih1]
      · simp only [readPolicyFiles, List.filterMap_cons, hpo, ih2]
      · simp only [readAuthRoles]
        simp [hcond, ih3]

end GitOpsTerraform
